import Mathlib

/-!
Shallow embedding of the ngd `domains` command: the DNS resolver with
retry/backoff (`resolve`), the TLS reachability prober (`probeHttps`),
the bare → www → http fallback chain run by each worker
(`classifyDomain`), and the bounded worker pool (`PoolStep`).

Network nondeterminism (DNS replies, random server selection, TLS dial
outcomes) is modelled by deterministic oracles packaged in `Env`; the
functions additionally return the trace of network events and the list
of backoff sleeps they perform, so that frame and scheduling claims can
be stated.
-/

namespace Ngd

/-- A DNS answer record: an A record carrying an IPv4 address rendered as a
string, or any other record type (the code ignores everything but `dns.A`). -/
inductive RR where
  | A (ip : String)
  | other
deriving DecidableEq

/-- A received DNS reply message; only the answer section is inspected. -/
structure Reply where
  answer : List RR
deriving DecidableEq

/-- Failure reasons of `resolve`, mirroring the three error returns of the Go
function: retry exhaustion (with the servers attempted), an empty answer
section, and an answer without A records. -/
inductive ResolveError where
  | resolutionTimeout (servers : List String) (domain : String)
  | emptyAnswer (domain : String)
  | noAddressRecord (domain : String)
deriving DecidableEq

/-- Retry ceiling of the resolver, `const ResolverRetries = 5`. -/
def ResolverRetries : Nat := 5

/-- The fixed pool of public DNS servers, `var Resolvers`. -/
def Resolvers : List String :=
  ["8.8.8.8", "8.8.4.4",
   "1.1.1.1", "1.0.0.1",
   "9.9.9.9", "149.112.112.112",
   "208.67.222.222", "208.67.220.220"]

/-- Server selection `Resolvers[rand.Int()%len(Resolvers)]`, with the random
draw `r` supplied by the oracle. -/
def resolver (r : Nat) : String :=
  Resolvers.getD (r % Resolvers.length) ""

/-- One network round trip per attempt: `env k` is the outcome of the k-th
`c.Exchange` call — `none` for a transport error, `some reply` for a received
reply (successful or protocol-level failure answer). -/
def DnsOracle : Type := Nat → Option Reply

/-- The retry loop of `resolve`: pick a server, record it in `acc`, exchange;
break on a received reply or once `ResolverRetries` servers have been tried,
otherwise sleep `100ms × len(resolvers)` and loop. Returns the final reply
(or `none`), the servers attempted in order, and the sleeps performed. -/
def resolveLoop (env : DnsOracle) (rnd : Nat → Nat) (k : Nat)
    (acc : List String) (sleeps : List Nat) :
    Option Reply × List String × List Nat :=
  match env k with
  | some reply => (some reply, acc ++ [resolver (rnd k)], sleeps)
  | none =>
      if ResolverRetries ≤ acc.length + 1 then
        (none, acc ++ [resolver (rnd k)], sleeps)
      else
        resolveLoop env rnd (k + 1) (acc ++ [resolver (rnd k)])
          (sleeps ++ [100 * (acc.length + 1)])
termination_by ResolverRetries - acc.length
decreasing_by
  simp only [List.length_append, List.length_cons, List.length_nil,
    ResolverRetries] at *
  omega

/-- Extraction of the A-record addresses from the answer section, mirroring
the Go loop `for _, a := range in.Answer { switch ... case *dns.A: ips =
append(ips, v.A.String()) }`. -/
def extractA (answer : List RR) : List String :=
  answer.foldl
    (fun ips rr =>
      match rr with
      | RR.A ip => ips ++ [ip]
      | RR.other => ips)
    []

/-- Classification of a received reply: empty answer section, no A records,
or the ordered list of A-record addresses. -/
def classifyReply (domain : String) (reply : Reply) :
    Except ResolveError (List String) :=
  if reply.answer.length = 0 then
    Except.error (ResolveError.emptyAnswer domain)
  else
    let ips := extractA reply.answer
    if ips.length = 0 then
      Except.error (ResolveError.noAddressRecord domain)
    else
      Except.ok ips

/-- Result of a full `resolve` call: the outcome together with the servers
attempted and the backoff sleeps performed. -/
structure ResolveOut where
  result : Except ResolveError (List String)
  attempts : List String
  sleeps : List Nat

/-- The `resolve` function of the Go source: run the retry loop from a fresh
empty server list; if no reply was obtained fail with the retry-exhaustion
error reporting the servers attempted, otherwise classify the reply. -/
def resolveFull (env : DnsOracle) (rnd : Nat → Nat) (domain : String) :
    ResolveOut :=
  let out := resolveLoop env rnd 0 [] []
  match out.1 with
  | none =>
      ⟨Except.error (ResolveError.resolutionTimeout out.2.1 domain),
        out.2.1, out.2.2⟩
  | some reply => ⟨classifyReply domain reply, out.2.1, out.2.2⟩

/-- A network event: a DNS query sent to a server for a domain, or a TLS dial
to an address with the given server-name indication. -/
inductive NetEvent where
  | dnsQuery (server : String) (domain : String)
  | tlsDial (domain : String) (ip : String)
deriving DecidableEq

/-- The domain a network event concerns. -/
def eventDomain : NetEvent → String
  | NetEvent.dnsQuery _ d => d
  | NetEvent.tlsDial d _ => d

/-- Outcome of one `tls.DialWithDialer` call: a handshake failure with an
error message, or an established connection whose `Close` may itself fail
(the close error is swallowed by the code). -/
inductive DialOutcome where
  | fail (err : String)
  | ok (closeErr : Option String)
deriving DecidableEq

/-- Rendering of a resolution failure as the error string the Go function
returns through `fmt.Errorf` / `errors` values. -/
def renderResolveError : ResolveError → String
  | ResolveError.resolutionTimeout servers d =>
      "failed to resolve after " ++ toString servers.length ++ " retries on "
        ++ toString servers ++ ": " ++ d
  | ResolveError.emptyAnswer d => "empty DNS answer for " ++ d
  | ResolveError.noAddressRecord d => "no A records for " ++ d

/-- The error message recorded on a failed dial,
`fmt.Errorf("%s on %s: %s", domain, ip, err)`. -/
def dialErrMsg (domain ip err : String) : String :=
  domain ++ " on " ++ ip ++ ": " ++ err

/-- The network oracles one run interacts with: per-domain DNS exchange
outcomes, per-domain random draws for server selection, and per
(domain, address) TLS dial outcomes. -/
structure Env where
  dns : String → DnsOracle
  rnd : String → Nat → Nat
  dial : String → String → DialOutcome

/-- The address loop of `probeHttps`: dial each address in order; on the
first successful handshake close the connection (swallowing any close error)
and return success (`none`) at once; on failure remember the formatted error
and continue; when addresses run out return the last error. Also returns the
trace of TLS dials performed. -/
def probeLoop (dial : String → String → DialOutcome) (domain : String)
    (lastErr : Option String) :
    List String → Option String × List NetEvent
  | [] => (lastErr, [])
  | ip :: rest =>
      match dial domain ip with
      | DialOutcome.fail e =>
          let r := probeLoop dial domain (some (dialErrMsg domain ip e)) rest
          (r.1, NetEvent.tlsDial domain ip :: r.2)
      | DialOutcome.ok _ => (none, [NetEvent.tlsDial domain ip])

/-- The `probeHttps` function: resolve the domain (propagating a resolution
failure as the probe's error), then run the address loop on the resolved
addresses. Returns `none` on success, `some msg` on failure, together with
the network trace (DNS queries of the resolution, then TLS dials). -/
def probeHttps (E : Env) (domain : String) : Option String × List NetEvent :=
  let r := resolveFull (E.dns domain) (E.rnd domain) domain
  let dnsTrace := r.attempts.map (fun s => NetEvent.dnsQuery s domain)
  match r.result with
  | Except.error e => (some (renderResolveError e), dnsTrace)
  | Except.ok ips =>
      let p := probeLoop E.dial domain none ips
      (p.1, dnsTrace ++ p.2)

/-- The body a worker runs for one input domain: probe the bare domain; on
failure probe the www-prefixed variant; emit `https://{current}/` on whichever
succeeded, and `http://{domain}/` if both failed. Returns the emitted result
line and the network trace of the chain. -/
def classifyDomain (E : Env) (domain : String) : String × List NetEvent :=
  let p1 := probeHttps E domain
  match p1.1 with
  | none => ("https://" ++ domain ++ "/", p1.2)
  | some _ =>
      let p2 := probeHttps E ("www." ++ domain)
      match p2.1 with
      | none => ("https://" ++ ("www." ++ domain) ++ "/", p1.2 ++ p2.2)
      | some _ => ("http://" ++ domain ++ "/", p1.2 ++ p2.2)

/-- The read loop of the command consumes input lines until the first empty
line or end of input (`ReadLine` returns an empty slice at end of file). -/
def consumedDomains (lines : List String) : List String :=
  lines.takeWhile (fun t => t.length != 0)

/-- Sequential denotation of one run of the `domains` command: the multiset
of result lines emitted, one per consumed input domain (the worker pool does
not guarantee output order; `PoolStep` below models the scheduling). -/
def runDomains (E : Env) (lines : List String) : List String :=
  (consumedDomains lines).map (fun d => (classifyDomain E d).1)

/-- Phase of one pool worker: blocked on a channel receive, processing a
domain (the fallback chain is in flight), or exited after the closed channel
drained. -/
inductive WorkerPhase where
  | idle
  | busy (domain : String)
  | finished
deriving DecidableEq

/-- State of the `domains` command run: remaining input lines to read, whether
`close(ch)` has happened, the channel buffer contents, the worker phases, and
the result lines emitted so far. -/
structure PoolState where
  input : List String
  closed : Bool
  queue : List String
  workers : List WorkerPhase
  output : List String

/-- Initial state of a run: the consumable input is still unread, the channel
is open and empty, and all `N` workers started by the command are idle. -/
def initState (N : Nat) (lines : List String) : PoolState :=
  ⟨consumedDomains lines, false, [], List.replicate N WorkerPhase.idle, []⟩

/-- Interleaving semantics of the command's goroutines. `produce` is the read
loop sending into the buffered channel of capacity `N` (blocked while the
buffer is full); `closeCh` is `close(ch)` after the read loop ends; `receive`
and `complete` are a worker taking a domain from the channel and finishing
its fallback chain, emitting one result line; `exit` is a worker's
`range ch` loop ending once the channel is closed and drained. -/
inductive PoolStep (N : Nat) (E : Env) : PoolState → PoolState → Prop where
  | produce (s : PoolState) (d : String) (rest : List String)
      (hc : s.closed = false) (hi : s.input = d :: rest)
      (hq : s.queue.length < N) :
      PoolStep N E s { s with input := rest, queue := s.queue ++ [d] }
  | closeCh (s : PoolState)
      (hc : s.closed = false) (hi : s.input = []) :
      PoolStep N E s { s with closed := true }
  | receive (s : PoolState) (i : Nat) (d : String) (rest : List String)
      (hw : s.workers.getD i WorkerPhase.finished = WorkerPhase.idle)
      (hq : s.queue = d :: rest) :
      PoolStep N E s
        { s with queue := rest,
                 workers := s.workers.set i (WorkerPhase.busy d) }
  | complete (s : PoolState) (i : Nat) (d : String)
      (hw : s.workers.getD i WorkerPhase.finished = WorkerPhase.busy d) :
      PoolStep N E s
        { s with workers := s.workers.set i WorkerPhase.idle,
                 output := s.output ++ [(classifyDomain E d).1] }
  | exit (s : PoolState) (i : Nat)
      (hw : s.workers.getD i WorkerPhase.finished = WorkerPhase.idle)
      (hc : s.closed = true) (hq : s.queue = []) :
      PoolStep N E s { s with workers := s.workers.set i WorkerPhase.finished }

/-- Number of workers with a probe in flight. -/
def countBusy (ws : List WorkerPhase) : Nat :=
  (ws.filter
      (fun w =>
        match w with
        | WorkerPhase.busy _ => true
        | _ => false)).length

/-- All workers have exited; `wg.Wait()` returns and the command run ends
exactly when this holds. -/
def allFinished (ws : List WorkerPhase) : Bool :=
  ws.all (fun w => w == WorkerPhase.finished)

/-- Projection of an answer record to its A-record address, if any. -/
def raIp : RR → Option String
  | RR.A ip => some ip
  | RR.other => none

/-- Inductive invariant of the pool transition system: the worker count is
fixed at `N`, the channel buffer never exceeds its capacity `N`, the channel
is only closed after the input was fully read, a finished worker implies the
channel was closed, and once the channel is closed and every worker has
finished the buffer has been drained. -/
def PoolInv (N : Nat) (s : PoolState) : Prop :=
  s.workers.length = N ∧
  s.queue.length ≤ N ∧
  (s.closed = true → s.input = []) ∧
  ((∃ w ∈ s.workers, w = WorkerPhase.finished) → s.closed = true) ∧
  (allFinished s.workers = true → s.closed = true → s.queue = [])

/-- Test environment in which every DNS exchange answers with one A record
and every TLS dial succeeds. -/
def allOkEnv : Env :=
  ⟨fun _ _ => some ⟨[RR.A "1.2.3.4"]⟩, fun _ _ => 0,
   fun _ _ => DialOutcome.ok none⟩

/-- Test environment in which every DNS exchange hits a transport error and
every TLS dial is refused. -/
def allFailEnv : Env :=
  ⟨fun _ _ => none, fun _ _ => 0, fun _ _ => DialOutcome.fail "refused"⟩

/-- Test environment in which DNS always answers but the TLS handshake fails
for the bare domain a and succeeds for every other server name. -/
def mixedEnv : Env :=
  ⟨fun _ _ => some ⟨[RR.A "1.2.3.4"]⟩, fun _ _ => 0,
   fun dom _ =>
     if dom = "a" then DialOutcome.fail "nope" else DialOutcome.ok none⟩

theorem resolvers_length : Resolvers.length = 8 := by
  simp [Resolvers]

theorem resolver_mem (r : Nat) : resolver r ∈ Resolvers := by
  have h : r % Resolvers.length < Resolvers.length :=
    Nat.mod_lt _ (by simp [Resolvers])
  rw [resolver, List.getD_eq_getElem _ _ h]
  exact List.getElem_mem h

theorem resolveLoop_reply (env : DnsOracle) (rnd : Nat → Nat) (k : Nat)
    (acc : List String) (sleeps : List Nat) (reply : Reply)
    (h : env k = some reply) :
    resolveLoop env rnd k acc sleeps =
      (some reply, acc ++ [resolver (rnd k)], sleeps) := by
  rw [resolveLoop, h]

theorem resolveLoop_break (env : DnsOracle) (rnd : Nat → Nat) (k : Nat)
    (acc : List String) (sleeps : List Nat)
    (h : env k = none) (hlen : ResolverRetries ≤ acc.length + 1) :
    resolveLoop env rnd k acc sleeps =
      (none, acc ++ [resolver (rnd k)], sleeps) := by
  rw [resolveLoop, h]
  simp [hlen]

theorem resolveLoop_retry (env : DnsOracle) (rnd : Nat → Nat) (k : Nat)
    (acc : List String) (sleeps : List Nat)
    (h : env k = none) (hlen : acc.length + 1 < ResolverRetries) :
    resolveLoop env rnd k acc sleeps =
      resolveLoop env rnd (k + 1) (acc ++ [resolver (rnd k)])
        (sleeps ++ [100 * (acc.length + 1)]) := by
  rw [resolveLoop, h]
  simp [Nat.not_le.mpr hlen]

theorem resolveLoop_spec (env : DnsOracle) (rnd : Nat → Nat) :
    ∀ (n k : Nat) (acc : List String) (sleeps : List Nat),
      acc.length < ResolverRetries →
      ResolverRetries - acc.length ≤ n →
      ((resolveLoop env rnd k acc sleeps).2.1.length ≤ ResolverRetries) ∧
      ((resolveLoop env rnd k acc sleeps).1 = none →
        (resolveLoop env rnd k acc sleeps).2.1.length = ResolverRetries) ∧
      (∀ s ∈ (resolveLoop env rnd k acc sleeps).2.1,
        s ∈ acc ∨ s ∈ Resolvers) := by
  intro n
  induction n with
  | zero =>
      intro k acc sleeps hlt hle
      omega
  | succ n ih =>
      intro k acc sleeps hlt hle
      cases henv : env k with
      | some reply =>
          rw [resolveLoop_reply env rnd k acc sleeps reply henv]
          refine ⟨by simp; omega, by simp, ?_⟩
          intro s hs
          rcases List.mem_append.mp hs with h | h
          · exact Or.inl h
          · simp at h
            exact Or.inr (h ▸ resolver_mem (rnd k))
      | none =>
          by_cases hlen : ResolverRetries ≤ acc.length + 1
          · rw [resolveLoop_break env rnd k acc sleeps henv hlen]
            refine ⟨by simp; omega, by simp; omega, ?_⟩
            intro s hs
            rcases List.mem_append.mp hs with h | h
            · exact Or.inl h
            · simp at h
              exact Or.inr (h ▸ resolver_mem (rnd k))
          · push_neg at hlen
            rw [resolveLoop_retry env rnd k acc sleeps henv hlen]
            have hlt' : (acc ++ [resolver (rnd k)]).length < ResolverRetries := by
              simp
              omega
            have hle' :
                ResolverRetries - (acc ++ [resolver (rnd k)]).length ≤ n := by
              simp
              omega
            obtain ⟨h1, h2, h3⟩ := ih (k + 1) (acc ++ [resolver (rnd k)])
              (sleeps ++ [100 * (acc.length + 1)]) hlt' hle'
            refine ⟨h1, h2, ?_⟩
            intro s hs
            rcases h3 s hs with h | h
            · rcases List.mem_append.mp h with h' | h'
              · exact Or.inl h'
              · simp at h'
                exact Or.inr (h' ▸ resolver_mem (rnd k))
            · exact Or.inr h

theorem resolveLoop_first_reply (env : DnsOracle) (rnd : Nat → Nat) :
    ∀ (m k : Nat) (acc : List String) (sleeps : List Nat) (reply : Reply),
      (∀ j, k ≤ j → j < k + m → env j = none) →
      env (k + m) = some reply →
      acc.length + m + 1 ≤ ResolverRetries →
      resolveLoop env rnd k acc sleeps =
        (some reply,
         acc ++ (List.range (m + 1)).map (fun j => resolver (rnd (k + j))),
         sleeps ++ (List.range m).map (fun j => 100 * (acc.length + j + 1))) := by
  intro m
  induction m with
  | zero =>
      intro k acc sleeps reply _ hk _
      rw [resolveLoop_reply env rnd k acc sleeps reply (by simpa using hk)]
      simp [List.range_succ]
  | succ m ih =>
      intro k acc sleeps reply hfail hk hlen
      have henv : env k = none := hfail k (le_refl k) (by omega)
      rw [resolveLoop_retry env rnd k acc sleeps henv (by omega)]
      rw [ih (k + 1) (acc ++ [resolver (rnd k)])
        (sleeps ++ [100 * (acc.length + 1)]) reply
        (fun j hj1 hj2 => hfail j (by omega) (by omega))
        (by rw [show k + 1 + m = k + (m + 1) by omega]; exact hk)
        (by simp; omega)]
      have hmapA : (List.range (m + 1 + 1)).map (fun j => resolver (rnd (k + j))) =
          resolver (rnd k) ::
            (List.range (m + 1)).map (fun j => resolver (rnd (k + 1 + j))) := by
        rw [List.range_succ_eq_map, List.map_cons, List.map_map]
        congr 1
        refine List.map_congr_left ?_
        intro j hj
        simp only [Function.comp_apply]
        refine congrArg _ (congrArg _ ?_)
        omega
      have hmapS : (List.range (m + 1)).map (fun j => 100 * (acc.length + j + 1)) =
          100 * (acc.length + 1) ::
            (List.range m).map
              (fun j => 100 * ((acc ++ [resolver (rnd k)]).length + j + 1)) := by
        rw [List.range_succ_eq_map, List.map_cons, List.map_map]
        congr 1
        refine List.map_congr_left ?_
        intro j hj
        simp only [Function.comp_apply, List.length_append, List.length_cons,
          List.length_nil]
        omega
      rw [hmapA, hmapS]
      simp [List.append_assoc]

theorem extractA_eq_filterMap (answer : List RR) :
    extractA answer = answer.filterMap raIp := by
  have h : ∀ (l : List RR) (acc : List String),
      l.foldl
        (fun ips rr =>
          match rr with
          | RR.A ip => ips ++ [ip]
          | RR.other => ips)
        acc = acc ++ l.filterMap raIp := by
    intro l
    induction l with
    | nil => intro acc; simp
    | cons a l ih =>
        intro acc
        cases a with
        | A ip => simp [List.foldl_cons, ih, raIp]
        | other => simp [List.foldl_cons, ih, raIp]
  simpa using h answer []

theorem resolveFull_none (env : DnsOracle) (rnd : Nat → Nat) (d : String)
    (h : (resolveLoop env rnd 0 [] []).1 = none) :
    resolveFull env rnd d =
      ⟨Except.error (ResolveError.resolutionTimeout
          (resolveLoop env rnd 0 [] []).2.1 d),
        (resolveLoop env rnd 0 [] []).2.1,
        (resolveLoop env rnd 0 [] []).2.2⟩ := by
  rw [resolveFull]
  rw [h]

theorem resolveFull_some (env : DnsOracle) (rnd : Nat → Nat) (d : String)
    (reply : Reply)
    (h : (resolveLoop env rnd 0 [] []).1 = some reply) :
    resolveFull env rnd d =
      ⟨classifyReply d reply,
        (resolveLoop env rnd 0 [] []).2.1,
        (resolveLoop env rnd 0 [] []).2.2⟩ := by
  rw [resolveFull]
  rw [h]

theorem resolveLoop_all_none (env : DnsOracle) (rnd : Nat → Nat)
    (hall : ∀ k, env k = none) :
    resolveLoop env rnd 0 [] [] =
      (none,
       [resolver (rnd 0), resolver (rnd 1), resolver (rnd 2),
        resolver (rnd 3), resolver (rnd 4)],
       [100, 200, 300, 400]) := by
  rw [resolveLoop_retry env rnd 0 [] [] (hall 0) (by simp [ResolverRetries])]
  rw [resolveLoop_retry env rnd 1 _ _ (hall 1) (by simp [ResolverRetries])]
  rw [resolveLoop_retry env rnd 2 _ _ (hall 2) (by simp [ResolverRetries])]
  rw [resolveLoop_retry env rnd 3 _ _ (hall 3) (by simp [ResolverRetries])]
  rw [resolveLoop_break env rnd 4 _ _ (hall 4) (by simp [ResolverRetries])]
  simp

theorem classifyReply_no_timeout (d : String) (reply : Reply)
    (servers : List String) (d' : String) :
    classifyReply d reply ≠
      Except.error (ResolveError.resolutionTimeout servers d') := by
  rw [classifyReply]
  split
  · simp
  · dsimp only
    split
    · simp
    · simp

theorem probeLoop_ok_of_mem (dial : String → String → DialOutcome)
    (domain : String) :
    ∀ (ips : List String) (lastErr : Option String) (ip : String)
      (c : Option String),
      ip ∈ ips → dial domain ip = DialOutcome.ok c →
      (probeLoop dial domain lastErr ips).1 = none := by
  intro ips
  induction ips with
  | nil =>
      intro lastErr ip c hmem
      simp at hmem
  | cons q rest ih =>
      intro lastErr ip c hmem hok
      rcases List.mem_cons.mp hmem with rfl | hmem'
      · rw [probeLoop, hok]
      · rw [probeLoop]
        cases hd : dial domain q with
        | fail e => exact ih (some (dialErrMsg domain q e)) ip c hmem' hok
        | ok c' => rfl

theorem probeLoop_first_success (dial : String → String → DialOutcome)
    (domain : String) :
    ∀ (pre : List String) (lastErr : Option String) (ip : String)
      (post : List String) (c : Option String),
      (∀ q ∈ pre, ∃ e, dial domain q = DialOutcome.fail e) →
      dial domain ip = DialOutcome.ok c →
      probeLoop dial domain lastErr (pre ++ ip :: post) =
        (none, (pre ++ [ip]).map (fun q => NetEvent.tlsDial domain q)) := by
  intro pre
  induction pre with
  | nil =>
      intro lastErr ip post c _ hok
      rw [List.nil_append, probeLoop, hok]
      simp
  | cons q pre' ih =>
      intro lastErr ip post c hfail hok
      obtain ⟨e, he⟩ := hfail q (List.mem_cons_self q pre')
      rw [List.cons_append, probeLoop, he]
      dsimp only
      rw [ih (some (dialErrMsg domain q e)) ip post c
        (fun q' hq' => hfail q' (List.mem_cons_of_mem q hq')) hok]
      simp

theorem probeLoop_all_fail (dial : String → String → DialOutcome)
    (domain : String) :
    ∀ (ips : List String) (lastErr : Option String),
      ips ≠ [] →
      (∀ q ∈ ips, ∃ e, dial domain q = DialOutcome.fail e) →
      ∃ e, dial domain (ips.getLastD "") = DialOutcome.fail e ∧
        probeLoop dial domain lastErr ips =
          (some (dialErrMsg domain (ips.getLastD "") e),
           ips.map (fun q => NetEvent.tlsDial domain q)) := by
  intro ips
  induction ips with
  | nil =>
      intro lastErr hne
      exact absurd rfl hne
  | cons q rest ih =>
      intro lastErr hne hfail
      obtain ⟨e, he⟩ := hfail q (List.mem_cons_self q rest)
      cases rest with
      | nil =>
          refine ⟨e, by simpa using he, ?_⟩
          rw [probeLoop, he]
          dsimp only
          rw [probeLoop]
          simp
      | cons q' rest' =>
          obtain ⟨e', he', hloop⟩ := ih (some (dialErrMsg domain q e))
            (by simp)
            (fun q'' hq'' => hfail q'' (List.mem_cons_of_mem q hq''))
          refine ⟨e', by simpa using he', ?_⟩
          rw [probeLoop, he]
          dsimp only
          rw [hloop]
          simp

theorem probeLoop_events_tls (dial : String → String → DialOutcome)
    (domain : String) :
    ∀ (ips : List String) (lastErr : Option String),
      ∀ ev ∈ (probeLoop dial domain lastErr ips).2,
        ∃ ip, ev = NetEvent.tlsDial domain ip := by
  intro ips
  induction ips with
  | nil =>
      intro lastErr ev hev
      simp [probeLoop] at hev
  | cons q rest ih =>
      intro lastErr ev hev
      rw [probeLoop] at hev
      cases hd : dial domain q with
      | fail e =>
          rw [hd] at hev
          simp only [List.mem_cons] at hev
          rcases hev with rfl | hev'
          · exact ⟨q, rfl⟩
          · exact ih (some (dialErrMsg domain q e)) ev hev'
      | ok c =>
          rw [hd] at hev
          simp only [List.mem_singleton] at hev
          exact ⟨q, hev⟩

theorem probeHttps_events_domain (E : Env) (domain : String) :
    ∀ ev ∈ (probeHttps E domain).2, eventDomain ev = domain := by
  intro ev hev
  rw [probeHttps] at hev
  cases hres : (resolveFull (E.dns domain) (E.rnd domain) domain).result with
  | error e =>
      rw [hres] at hev
      simp only [List.mem_map] at hev
      obtain ⟨s, _, rfl⟩ := hev
      rfl
  | ok ips =>
      rw [hres] at hev
      simp only [List.mem_append, List.mem_map] at hev
      rcases hev with ⟨s, _, rfl⟩ | hev'
      · rfl
      · obtain ⟨ip, rfl⟩ :=
          probeLoop_events_tls E.dial domain ips none _ hev'
        rfl

theorem probeHttps_resolve_error (E : Env) (d : String) (e : ResolveError)
    (h : (resolveFull (E.dns d) (E.rnd d) d).result = Except.error e) :
    probeHttps E d =
      (some (renderResolveError e),
       (resolveFull (E.dns d) (E.rnd d) d).attempts.map
         (fun s => NetEvent.dnsQuery s d)) := by
  rw [probeHttps]
  rw [h]

theorem probeHttps_resolve_ok (E : Env) (d : String) (ips : List String)
    (h : (resolveFull (E.dns d) (E.rnd d) d).result = Except.ok ips) :
    probeHttps E d =
      ((probeLoop E.dial d none ips).1,
       (resolveFull (E.dns d) (E.rnd d) d).attempts.map
         (fun s => NetEvent.dnsQuery s d) ++ (probeLoop E.dial d none ips).2) := by
  rw [probeHttps]
  rw [h]

theorem probeHttps_ok_of_dial (E : Env) (d : String) (ips : List String)
    (ip : String) (c : Option String)
    (hres : (resolveFull (E.dns d) (E.rnd d) d).result = Except.ok ips)
    (hmem : ip ∈ ips) (hdial : E.dial d ip = DialOutcome.ok c) :
    (probeHttps E d).1 = none := by
  rw [probeHttps_resolve_ok E d ips hres]
  exact probeLoop_ok_of_mem E.dial d ips none ip c hmem hdial

theorem classifyDomain_bare_ok (E : Env) (d : String)
    (h : (probeHttps E d).1 = none) :
    classifyDomain E d = ("https://" ++ d ++ "/", (probeHttps E d).2) := by
  rw [classifyDomain]
  rw [h]

theorem classifyDomain_www_ok (E : Env) (d : String) (e : String)
    (h1 : (probeHttps E d).1 = some e)
    (h2 : (probeHttps E ("www." ++ d)).1 = none) :
    classifyDomain E d =
      ("https://" ++ ("www." ++ d) ++ "/",
       (probeHttps E d).2 ++ (probeHttps E ("www." ++ d)).2) := by
  rw [classifyDomain]
  rw [h1]
  dsimp only
  rw [h2]

theorem classifyDomain_degrade_eq (E : Env) (d : String) (e1 e2 : String)
    (h1 : (probeHttps E d).1 = some e1)
    (h2 : (probeHttps E ("www." ++ d)).1 = some e2) :
    classifyDomain E d =
      ("http://" ++ d ++ "/",
       (probeHttps E d).2 ++ (probeHttps E ("www." ++ d)).2) := by
  rw [classifyDomain]
  rw [h1]
  dsimp only
  rw [h2]

theorem classifyDomain_forms (E : Env) (d : String) :
    (classifyDomain E d).1 = "https://" ++ d ++ "/" ∨
    (classifyDomain E d).1 = "https://" ++ ("www." ++ d) ++ "/" ∨
    (classifyDomain E d).1 = "http://" ++ d ++ "/" := by
  cases h1 : (probeHttps E d).1 with
  | none => exact Or.inl (by rw [classifyDomain_bare_ok E d h1])
  | some e1 =>
      cases h2 : (probeHttps E ("www." ++ d)).1 with
      | none =>
          exact Or.inr (Or.inl (by rw [classifyDomain_www_ok E d e1 h1 h2]))
      | some e2 =>
          exact Or.inr (Or.inr
            (by rw [classifyDomain_degrade_eq E d e1 e2 h1 h2]))

/-- C4: `resolve` performs at most `ResolverRetries` (5) DNS attempts and, as
a total function, always terminates; if no attempt obtains a reply it returns
the `ResolutionTimeout` failure reporting the list of servers attempted
rather than retrying forever. -/
theorem resolve_retry_ceiling (env : DnsOracle) (rnd : Nat → Nat)
    (d : String) :
    (resolveFull env rnd d).attempts.length ≤ ResolverRetries ∧
    ((∀ k, env k = none) →
      (resolveFull env rnd d).result =
        Except.error (ResolveError.resolutionTimeout
          (resolveFull env rnd d).attempts d)) := by
  obtain ⟨h1, h2, h3⟩ := resolveLoop_spec env rnd ResolverRetries 0 [] []
    (by simp [ResolverRetries]) (by simp)
  constructor
  · cases hres : (resolveLoop env rnd 0 [] []).1 with
    | none => rw [resolveFull_none env rnd d hres]; exact h1
    | some reply => rw [resolveFull_some env rnd d reply hres]; exact h1
  · intro hall
    have hres : (resolveLoop env rnd 0 [] []).1 = none := by
      rw [resolveLoop_all_none env rnd hall]
    rw [resolveFull_none env rnd d hres]

theorem resolve_retry_ceiling_witness :
    (resolveFull (fun _ => none) (fun _ => 0) "example.com").attempts.length ≤
      ResolverRetries ∧
    (resolveFull (fun _ => none) (fun _ => 0) "example.com").result =
      Except.error (ResolveError.resolutionTimeout
        (resolveFull (fun _ => none) (fun _ => 0) "example.com").attempts
        "example.com") :=
  ⟨(resolve_retry_ceiling (fun _ => none) (fun _ => 0) "example.com").1,
   (resolve_retry_ceiling (fun _ => none) (fun _ => 0) "example.com").2
     (fun _ => rfl)⟩

/-- C10: whenever `resolve` fails with the retry-exhaustion error, the server
list embedded in that error has exactly `ResolverRetries` (5) entries, each
drawn from the fixed `Resolvers` pool: the loop only exits without a reply
after the full ceiling of attempts. -/
theorem resolve_timeout_exhausts_pool (env : DnsOracle) (rnd : Nat → Nat)
    (d : String) (servers : List String)
    (h : (resolveFull env rnd d).result =
      Except.error (ResolveError.resolutionTimeout servers d)) :
    servers.length = ResolverRetries ∧ ∀ s ∈ servers, s ∈ Resolvers := by
  obtain ⟨h1, h2, h3⟩ := resolveLoop_spec env rnd ResolverRetries 0 [] []
    (by simp [ResolverRetries]) (by simp)
  cases hres : (resolveLoop env rnd 0 [] []).1 with
  | some reply =>
      rw [resolveFull_some env rnd d reply hres] at h
      exact absurd h (classifyReply_no_timeout d reply servers d)
  | none =>
      rw [resolveFull_none env rnd d hres] at h
      simp only [Except.error.injEq, ResolveError.resolutionTimeout.injEq]
        at h
      obtain ⟨hsv, -⟩ := h
      subst hsv
      exact ⟨h2 hres, fun s hs => (h3 s hs).resolve_left (by simp)⟩

theorem resolve_timeout_exhausts_pool_witness :
    (["8.8.8.8", "8.8.8.8", "8.8.8.8", "8.8.8.8", "8.8.8.8"] :
      List String).length = ResolverRetries ∧
    ∀ s ∈ (["8.8.8.8", "8.8.8.8", "8.8.8.8", "8.8.8.8", "8.8.8.8"] :
      List String), s ∈ Resolvers := by
  have hall : ∀ k : Nat, (fun _ : Nat => (none : Option Reply)) k = none :=
    fun _ => rfl
  have hres : (resolveFull (fun _ => none) (fun _ => 0) "x").result =
      Except.error (ResolveError.resolutionTimeout
        ["8.8.8.8", "8.8.8.8", "8.8.8.8", "8.8.8.8", "8.8.8.8"] "x") := by
    rw [resolveFull_none (fun _ => none) (fun _ => 0) "x"
      (by rw [resolveLoop_all_none (fun _ => none) (fun _ => 0) hall])]
    rw [resolveLoop_all_none (fun _ => none) (fun _ => 0) hall]
    rfl
  exact resolve_timeout_exhausts_pool (fun _ => none) (fun _ => 0) "x" _ hres

/-- C5: each attempt picks the server `Resolvers[rnd k % len(Resolvers)]`
(and the selection is uniform over the pool: each server owns exactly one
residue class of the draw); after the j-th failed attempt the resolver sleeps
`100ms × j`; it stops retrying at the first received reply, and when the
first k attempts fail (k < 5) and attempt k+1 obtains a reply, `resolve`
returns the classification of that successful reply. -/
theorem resolve_backoff_and_first_reply (env : DnsOracle) (rnd : Nat → Nat)
    (d : String) (k : Nat) (reply : Reply)
    (hk : k < ResolverRetries)
    (h1 : ∀ j, j < k → env j = none)
    (h2 : env k = some reply) :
    (resolveFull env rnd d).attempts =
      (List.range (k + 1)).map (fun j => resolver (rnd j)) ∧
    (resolveFull env rnd d).sleeps =
      (List.range k).map (fun j => 100 * (j + 1)) ∧
    (resolveFull env rnd d).result = classifyReply d reply ∧
    (∀ s ∈ Resolvers,
      ((List.range Resolvers.length).filter
        (fun n => resolver n == s)).length = 1) := by
  have hloop := resolveLoop_first_reply env rnd k 0 [] [] reply
    (fun j hj1 hj2 => h1 j (by omega)) (by simpa using h2)
    (by simp; omega)
  have hres : (resolveLoop env rnd 0 [] []).1 = some reply := by rw [hloop]
  rw [resolveFull_some env rnd d reply hres]
  refine ⟨?_, ?_, rfl, by decide⟩
  · show (resolveLoop env rnd 0 [] []).2.1 = _
    rw [hloop]
    simp
  · show (resolveLoop env rnd 0 [] []).2.2 = _
    rw [hloop]
    simp

theorem resolve_backoff_and_first_reply_witness :
    (resolveFull
      (fun j => if j < 4 then none else some ⟨[RR.A "1.2.3.4"]⟩)
      (fun n => n) "x").sleeps = [100, 200, 300, 400] ∧
    (resolveFull
      (fun j => if j < 4 then none else some ⟨[RR.A "1.2.3.4"]⟩)
      (fun n => n) "x").result = Except.ok ["1.2.3.4"] := by
  have h := resolve_backoff_and_first_reply
    (fun j => if j < 4 then none else some ⟨[RR.A "1.2.3.4"]⟩)
    (fun n => n) "x" 4 ⟨[RR.A "1.2.3.4"]⟩ (by decide)
    (fun j hj => by simp [hj]) (by simp)
  refine ⟨?_, ?_⟩
  · rw [h.2.1]
    rfl
  · rw [h.2.2.1]
    rfl

/-- C6: a received reply with zero answer records makes `resolve` fail with
`EmptyAnswer`; a reply with answers but no A records fails with
`NoAddressRecord`; otherwise `resolve` returns the A-record addresses in
exactly the order the server returned them, with no re-sorting and no
deduplication (the accumulation loop equals the order- and
duplicate-preserving `filterMap`). -/
theorem resolve_reply_classification (env : DnsOracle) (rnd : Nat → Nat)
    (d : String) (reply : Reply) (h : env 0 = some reply) :
    (resolveFull env rnd d).result =
      (if reply.answer.length = 0 then
        Except.error (ResolveError.emptyAnswer d)
      else if (reply.answer.filterMap raIp).length = 0 then
        Except.error (ResolveError.noAddressRecord d)
      else Except.ok (reply.answer.filterMap raIp)) ∧
    extractA reply.answer = reply.answer.filterMap raIp := by
  have hloop := resolveLoop_reply env rnd 0 [] [] reply h
  have hres : (resolveLoop env rnd 0 [] []).1 = some reply := by rw [hloop]
  rw [resolveFull_some env rnd d reply hres]
  refine ⟨?_, extractA_eq_filterMap reply.answer⟩
  show classifyReply d reply = _
  rw [classifyReply, extractA_eq_filterMap]

theorem resolve_reply_classification_witness :
    (resolveFull
      (fun _ => some ⟨[RR.other, RR.A "9.9.9.9", RR.A "9.9.9.9"]⟩)
      (fun _ => 0) "x").result = Except.ok ["9.9.9.9", "9.9.9.9"] ∧
    extractA [RR.other, RR.A "9.9.9.9", RR.A "9.9.9.9"] =
      ["9.9.9.9", "9.9.9.9"] := by
  have h := resolve_reply_classification
    (fun _ => some ⟨[RR.other, RR.A "9.9.9.9", RR.A "9.9.9.9"]⟩)
    (fun _ => 0) "x" ⟨[RR.other, RR.A "9.9.9.9", RR.A "9.9.9.9"]⟩ rfl
  refine ⟨?_, ?_⟩
  · rw [h.1]
    rfl
  · rw [h.2]
    rfl

/-- C7: the prober tries the given addresses strictly sequentially in list
order; at the first address whose TLS handshake succeeds it returns success
immediately, without dialing the remaining addresses and regardless of any
error while closing that connection (the close outcome c is arbitrary); if
the handshake fails on every address, the probe returns the failure recorded
for the last address attempted. -/
theorem probe_first_success_or_last_error
    (dial : String → String → DialOutcome) (d : String) :
    (∀ (pre : List String) (lastErr : Option String) (ip : String)
        (post : List String) (c : Option String),
      (∀ q ∈ pre, ∃ e, dial d q = DialOutcome.fail e) →
      dial d ip = DialOutcome.ok c →
      probeLoop dial d lastErr (pre ++ ip :: post) =
        (none, (pre ++ [ip]).map (fun q => NetEvent.tlsDial d q))) ∧
    (∀ (ips : List String) (lastErr : Option String), ips ≠ [] →
      (∀ q ∈ ips, ∃ e, dial d q = DialOutcome.fail e) →
      ∃ e, dial d (ips.getLastD "") = DialOutcome.fail e ∧
        probeLoop dial d lastErr ips =
          (some (dialErrMsg d (ips.getLastD "") e),
           ips.map (fun q => NetEvent.tlsDial d q))) :=
  ⟨probeLoop_first_success dial d, probeLoop_all_fail dial d⟩

theorem probe_first_success_or_last_error_witness :
    probeLoop
      (fun _ ip =>
        if ip = "1.1.1.1" then DialOutcome.ok (some "close boom")
        else DialOutcome.fail "refused") "x" none
      ["2.2.2.2", "1.1.1.1", "3.3.3.3"] =
      (none, [NetEvent.tlsDial "x" "2.2.2.2", NetEvent.tlsDial "x" "1.1.1.1"]) ∧
    probeLoop (fun _ _ => DialOutcome.fail "refused") "x" none
      ["2.2.2.2", "3.3.3.3"] =
      (some (dialErrMsg "x" "3.3.3.3" "refused"),
       [NetEvent.tlsDial "x" "2.2.2.2", NetEvent.tlsDial "x" "3.3.3.3"]) := by
  constructor
  · have h := (probe_first_success_or_last_error
      (fun _ ip =>
        if ip = "1.1.1.1" then DialOutcome.ok (some "close boom")
        else DialOutcome.fail "refused") "x").1
      ["2.2.2.2"] none "1.1.1.1" ["3.3.3.3"] (some "close boom")
      (fun q hq => ⟨"refused", by
        simp only [List.mem_singleton] at hq
        subst hq
        decide⟩)
      (by decide)
    simpa using h
  · obtain ⟨e, he, heq⟩ := (probe_first_success_or_last_error
      (fun _ _ => DialOutcome.fail "refused") "x").2
      ["2.2.2.2", "3.3.3.3"] none (by decide)
      (fun q hq => ⟨"refused", rfl⟩)
    have he' : "refused" = e := by simpa using he
    subst he'
    simpa using heq

/-- C8: the reachability prober performs no DNS work: the address loop
consumes only the pre-resolved address list and emits only TLS dial events
(never a DNS query), and in `probeHttps` every DNS query belongs to the
`resolve` phase, which completes before the address loop runs. -/
theorem prober_performs_no_dns (E : Env) (d : String) :
    (∀ (lastErr : Option String) (ips : List String),
      ∀ ev ∈ (probeLoop E.dial d lastErr ips).2,
        ∃ ip, ev = NetEvent.tlsDial d ip) ∧
    (∃ t, (probeHttps E d).2 =
        ((resolveFull (E.dns d) (E.rnd d) d).attempts.map
          (fun s => NetEvent.dnsQuery s d)) ++ t ∧
      ∀ ev ∈ t, ∃ ip, ev = NetEvent.tlsDial d ip) := by
  refine ⟨fun lastErr ips => probeLoop_events_tls E.dial d ips lastErr, ?_⟩
  cases hres : (resolveFull (E.dns d) (E.rnd d) d).result with
  | error e =>
      refine ⟨[], ?_, by simp⟩
      rw [probeHttps_resolve_error E d e hres]
      simp
  | ok ips =>
      exact ⟨(probeLoop E.dial d none ips).2,
        by rw [probeHttps_resolve_ok E d ips hres],
        fun ev hev => probeLoop_events_tls E.dial d ips none ev hev⟩

theorem prober_performs_no_dns_witness :
    ∀ ev ∈ (probeLoop allFailEnv.dial "x" none ["1.2.3.4"]).2,
      ∃ ip, ev = NetEvent.tlsDial "x" ip :=
  (prober_performs_no_dns allFailEnv "x").1 none ["1.2.3.4"]

/-- C2: the fallback chain probes the bare domain first and stops at the
first success: when resolution of the bare domain succeeds and some resolved
address completes the TLS handshake, the emitted line is exactly
https://{domain}/ and every network event of the chain concerns the bare
domain only — the www variant is never probed; when the bare probe fails and
the www-prefixed variant resolves and handshakes successfully, the emitted
line is exactly https://www.{domain}/. -/
theorem fallback_bare_then_www (E : Env) (d : String) :
    (∀ (ips : List String) (ip : String) (c : Option String),
      (resolveFull (E.dns d) (E.rnd d) d).result = Except.ok ips →
      ip ∈ ips → E.dial d ip = DialOutcome.ok c →
      (classifyDomain E d).1 = "https://" ++ d ++ "/" ∧
      ∀ ev ∈ (classifyDomain E d).2, eventDomain ev = d) ∧
    (∀ (e : String) (ips : List String) (ip : String) (c : Option String),
      (probeHttps E d).1 = some e →
      (resolveFull (E.dns ("www." ++ d)) (E.rnd ("www." ++ d))
        ("www." ++ d)).result = Except.ok ips →
      ip ∈ ips → E.dial ("www." ++ d) ip = DialOutcome.ok c →
      (classifyDomain E d).1 = "https://" ++ ("www." ++ d) ++ "/") := by
  constructor
  · intro ips ip c hres hmem hdial
    have hnone : (probeHttps E d).1 = none :=
      probeHttps_ok_of_dial E d ips ip c hres hmem hdial
    rw [classifyDomain_bare_ok E d hnone]
    exact ⟨rfl, fun ev hev => probeHttps_events_domain E d ev hev⟩
  · intro e ips ip c hsome hres hmem hdial
    have hnone : (probeHttps E ("www." ++ d)).1 = none :=
      probeHttps_ok_of_dial E ("www." ++ d) ips ip c hres hmem hdial
    rw [classifyDomain_www_ok E d e hsome hnone]

theorem fallback_bare_then_www_witness :
    (classifyDomain allOkEnv "a").1 = "https://" ++ "a" ++ "/" ∧
    (classifyDomain mixedEnv "a").1 = "https://" ++ ("www." ++ "a") ++ "/" := by
  constructor
  · have hres : (resolveFull (allOkEnv.dns "a") (allOkEnv.rnd "a")
        "a").result = Except.ok ["1.2.3.4"] := by
      rw [resolveFull_some _ _ _ ⟨[RR.A "1.2.3.4"]⟩
        (by rw [resolveLoop_reply _ _ 0 [] [] _ rfl])]
      rfl
    exact ((fallback_bare_then_www allOkEnv "a").1 ["1.2.3.4"] "1.2.3.4"
      none hres (by decide) rfl).1
  · have hres1 : (resolveFull (mixedEnv.dns "a") (mixedEnv.rnd "a")
        "a").result = Except.ok ["1.2.3.4"] := by
      rw [resolveFull_some _ _ _ ⟨[RR.A "1.2.3.4"]⟩
        (by rw [resolveLoop_reply _ _ 0 [] [] _ rfl])]
      rfl
    have hsome : (probeHttps mixedEnv "a").1 =
        some (dialErrMsg "a" "1.2.3.4" "nope") := by
      rw [probeHttps_resolve_ok mixedEnv "a" ["1.2.3.4"] hres1]
      decide
    have hres2 : (resolveFull (mixedEnv.dns ("www." ++ "a"))
        (mixedEnv.rnd ("www." ++ "a")) ("www." ++ "a")).result =
        Except.ok ["1.2.3.4"] := by
      rw [resolveFull_some _ _ _ ⟨[RR.A "1.2.3.4"]⟩
        (by rw [resolveLoop_reply _ _ 0 [] [] _ rfl])]
      rfl
    exact (fallback_bare_then_www mixedEnv "a").2
      (dialErrMsg "a" "1.2.3.4" "nope") ["1.2.3.4"] "1.2.3.4" none
      hsome hres2 (by decide) (by decide)

/-- C3: when both the bare and the www-prefixed probes fail (at either the
resolution or the handshake step), the chain emits exactly http://{domain}/
— the domain is never silently dropped — and the run's network trace is
exactly the two probes' traces: no further network activity is performed for
the degraded case. -/
theorem fallback_degrade_line (E : Env) (d : String) (e1 e2 : String)
    (h1 : (probeHttps E d).1 = some e1)
    (h2 : (probeHttps E ("www." ++ d)).1 = some e2) :
    (classifyDomain E d).1 = "http://" ++ d ++ "/" ∧
    (classifyDomain E d).2 =
      (probeHttps E d).2 ++ (probeHttps E ("www." ++ d)).2 := by
  rw [classifyDomain_degrade_eq E d e1 e2 h1 h2]
  exact ⟨rfl, rfl⟩

theorem fallback_degrade_line_witness :
    (classifyDomain allFailEnv "a").1 = "http://" ++ "a" ++ "/" := by
  have hp : ∀ dom : String, (probeHttps allFailEnv dom).1 =
      some (renderResolveError (ResolveError.resolutionTimeout
        ["8.8.8.8", "8.8.8.8", "8.8.8.8", "8.8.8.8", "8.8.8.8"] dom)) := by
    intro dom
    have hres : (resolveFull (allFailEnv.dns dom) (allFailEnv.rnd dom)
        dom).result = Except.error (ResolveError.resolutionTimeout
          ["8.8.8.8", "8.8.8.8", "8.8.8.8", "8.8.8.8", "8.8.8.8"] dom) := by
      rw [resolveFull_none _ _ _
        (by rw [resolveLoop_all_none (allFailEnv.dns dom) (allFailEnv.rnd dom)
          (fun _ => rfl)])]
      rw [resolveLoop_all_none (allFailEnv.dns dom) (allFailEnv.rnd dom)
        (fun _ => rfl)]
      rfl
    rw [probeHttps_resolve_error allFailEnv dom _ hres]
  exact (fallback_degrade_line allFailEnv "a" _ _
    (hp "a") (hp ("www." ++ "a"))).1

/-- C1: one result line per consumed input domain, where reading stops at the
first blank line or end of input: the output has exactly as many lines as
consumed domains — no domain dropped, none emitting twice — and the line at
each position is one of the three exact forms https://{domain}/,
https://www.{domain}/ or http://{domain}/ for the domain at that position. -/
theorem domains_one_line_per_domain (E : Env) (lines : List String) :
    (runDomains E lines).length = (consumedDomains lines).length ∧
    ∀ i, i < (consumedDomains lines).length →
      ((runDomains E lines).getD i "" =
          "https://" ++ (consumedDomains lines).getD i "" ++ "/" ∨
       (runDomains E lines).getD i "" =
          "https://" ++ ("www." ++ (consumedDomains lines).getD i "") ++ "/" ∨
       (runDomains E lines).getD i "" =
          "http://" ++ (consumedDomains lines).getD i "" ++ "/") := by
  refine ⟨by rw [runDomains, List.length_map], ?_⟩
  intro i hi
  have hlen : i < (runDomains E lines).length := by
    rw [runDomains, List.length_map]
    exact hi
  have hrun : (runDomains E lines).getD i "" =
      (classifyDomain E ((consumedDomains lines).getD i "")).1 := by
    rw [List.getD_eq_getElem _ _ hlen, List.getD_eq_getElem _ _ hi]
    simp [runDomains]
  rw [hrun]
  exact classifyDomain_forms E ((consumedDomains lines).getD i "")

theorem domains_one_line_per_domain_witness :
    (runDomains allFailEnv ["a"]).length = (consumedDomains ["a"]).length ∧
    ((runDomains allFailEnv ["a"]).getD 0 "" =
        "https://" ++ (consumedDomains ["a"]).getD 0 "" ++ "/" ∨
     (runDomains allFailEnv ["a"]).getD 0 "" =
        "https://" ++ ("www." ++ (consumedDomains ["a"]).getD 0 "") ++ "/" ∨
     (runDomains allFailEnv ["a"]).getD 0 "" =
        "http://" ++ (consumedDomains ["a"]).getD 0 "" ++ "/") :=
  ⟨(domains_one_line_per_domain allFailEnv ["a"]).1,
   (domains_one_line_per_domain allFailEnv ["a"]).2 0 (by decide)⟩

theorem mem_set_self {α : Type} (l : List α) (i : Nat) (a : α)
    (h : i < l.length) : a ∈ l.set i a := by
  have h' : i < (l.set i a).length := by
    rw [List.length_set]
    exact h
  have hg : (l.set i a)[i] = a := List.getElem_set_self h'
  exact List.mem_iff_getElem.mpr ⟨i, h', hg⟩

theorem workerIdx_lt (ws : List WorkerPhase) (i : Nat) (w : WorkerPhase)
    (hw : ws.getD i WorkerPhase.finished = w)
    (hne : w ≠ WorkerPhase.finished) : i < ws.length := by
  by_contra h
  push_neg at h
  rw [List.getD_eq_default _ _ h] at hw
  exact hne hw.symm

theorem poolStep_preserves_inv (N : Nat) (E : Env) (s s' : PoolState)
    (hinv : PoolInv N s) (hstep : PoolStep N E s s') : PoolInv N s' := by
  obtain ⟨hwl, hql, hcin, hfw, hdr⟩ := hinv
  cases hstep with
  | produce d rest hc hi hqlt =>
      refine ⟨hwl, ?_, ?_, hfw, ?_⟩
      · show (s.queue ++ [d]).length ≤ N
        rw [List.length_append]
        simp only [List.length_cons, List.length_nil]
        omega
      · intro h
        have h' : s.closed = true := h
        rw [hc] at h'
        exact Bool.noConfusion h'
      · intro _ hcl
        have h' : s.closed = true := hcl
        rw [hc] at h'
        exact Bool.noConfusion h'
  | closeCh hc hi =>
      refine ⟨hwl, hql, fun _ => hi, fun _ => rfl, ?_⟩
      intro hall _
      show s.queue = []
      by_cases hnil : s.workers = []
      · have hN : N = 0 := by
          rw [← hwl, hnil]
          rfl
        rw [hN] at hql
        exact List.eq_nil_of_length_eq_zero (Nat.le_zero.mp hql)
      · obtain ⟨w, hwmem⟩ := List.exists_mem_of_ne_nil s.workers hnil
        have hall' : s.workers.all (fun w => w == WorkerPhase.finished) =
            true := hall
        have hwfin : w = WorkerPhase.finished := by
          simpa using List.all_eq_true.mp hall' w hwmem
        have hcl' := hfw ⟨w, hwmem, hwfin⟩
        rw [hc] at hcl'
        exact Bool.noConfusion hcl'
  | receive i d rest hwg hqg =>
      have hilt : i < s.workers.length :=
        workerIdx_lt s.workers i _ hwg (by simp)
      refine ⟨?_, ?_, hcin, ?_, ?_⟩
      · show (s.workers.set i (WorkerPhase.busy d)).length = N
        rw [List.length_set]
        exact hwl
      · show rest.length ≤ N
        rw [hqg] at hql
        simp only [List.length_cons] at hql
        omega
      · rintro ⟨w, hwmem, rfl⟩
        rcases List.mem_or_eq_of_mem_set hwmem with hmem | heq
        · exact hfw ⟨_, hmem, rfl⟩
        · exact WorkerPhase.noConfusion heq
      · intro hall _
        exfalso
        have hmem : WorkerPhase.busy d ∈
            s.workers.set i (WorkerPhase.busy d) :=
          mem_set_self s.workers i (WorkerPhase.busy d) hilt
        have hall' : (s.workers.set i (WorkerPhase.busy d)).all
            (fun w => w == WorkerPhase.finished) = true := hall
        simpa using List.all_eq_true.mp hall' _ hmem
  | complete i d hwg =>
      have hilt : i < s.workers.length :=
        workerIdx_lt s.workers i _ hwg (by simp)
      refine ⟨?_, hql, hcin, ?_, ?_⟩
      · show (s.workers.set i WorkerPhase.idle).length = N
        rw [List.length_set]
        exact hwl
      · rintro ⟨w, hwmem, rfl⟩
        rcases List.mem_or_eq_of_mem_set hwmem with hmem | heq
        · exact hfw ⟨_, hmem, rfl⟩
        · exact WorkerPhase.noConfusion heq
      · intro hall _
        exfalso
        have hmem : WorkerPhase.idle ∈ s.workers.set i WorkerPhase.idle :=
          mem_set_self s.workers i WorkerPhase.idle hilt
        have hall' : (s.workers.set i WorkerPhase.idle).all
            (fun w => w == WorkerPhase.finished) = true := hall
        simpa using List.all_eq_true.mp hall' _ hmem
  | exit i hwg hc hqe =>
      refine ⟨?_, hql, hcin, fun _ => hc, fun _ _ => hqe⟩
      show (s.workers.set i WorkerPhase.finished).length = N
      rw [List.length_set]
      exact hwl

theorem poolReach_inv (N : Nat) (E : Env) (lines : List String)
    (s : PoolState)
    (h : Relation.ReflTransGen (PoolStep N E) (initState N lines) s) :
    PoolInv N s := by
  induction h with
  | refl =>
      refine ⟨?_, ?_, ?_, ?_, ?_⟩
      · exact List.length_replicate N WorkerPhase.idle
      · exact Nat.zero_le N
      · intro h'
        exact Bool.noConfusion h'
      · rintro ⟨w, hwmem, rfl⟩
        exact WorkerPhase.noConfusion (List.eq_of_mem_replicate hwmem)
      · intro _ hcl
        exact Bool.noConfusion hcl
  | tail hsteps hstep ih =>
      exact poolStep_preserves_inv N E _ _ ih hstep

/-- C9: with the concurrency parameter N, the pool is exactly N workers, so
no more than N probe operations are in flight simultaneously regardless of
input size; the single shared queue never exceeds its capacity N (the
producer can only enqueue while the buffer is below capacity, blocking when
it is full), and in any state satisfying the run's return condition —
channel closed and every worker finished draining — the input was fully
consumed and the queue fully drained. -/
theorem pool_concurrency_bound (N : Nat) (E : Env) (lines : List String)
    (s : PoolState)
    (h : Relation.ReflTransGen (PoolStep N E) (initState N lines) s) :
    s.workers.length = N ∧
    countBusy s.workers ≤ N ∧
    s.queue.length ≤ N ∧
    (s.closed = true → s.input = []) ∧
    (allFinished s.workers = true → s.closed = true →
      s.queue = [] ∧ s.input = []) := by
  obtain ⟨hwl, hql, hcin, hfw, hdr⟩ := poolReach_inv N E lines s h
  refine ⟨hwl, ?_, hql, hcin, fun hall hcl => ⟨hdr hall hcl, hcin hcl⟩⟩
  calc countBusy s.workers ≤ s.workers.length := List.length_filter_le _ _
    _ = N := hwl

theorem pool_concurrency_bound_witness :
    (initState 2 ["a"]).workers.length = 2 ∧
    countBusy (initState 2 ["a"]).workers ≤ 2 ∧
    (initState 2 ["a"]).queue.length ≤ 2 ∧
    ((initState 2 ["a"]).closed = true → (initState 2 ["a"]).input = []) ∧
    (allFinished (initState 2 ["a"]).workers = true →
      (initState 2 ["a"]).closed = true →
      (initState 2 ["a"]).queue = [] ∧ (initState 2 ["a"]).input = []) :=
  pool_concurrency_bound 2 allFailEnv ["a"] (initState 2 ["a"])
    Relation.ReflTransGen.refl

end Ngd
